import Mathlib

/-!
Verification of the AskVid response-selection core against its source.

The TypeScript source is shallowly embedded: JavaScript strings become Lean
`String`s, JS numbers holding seconds become exact rationals (`ℚ`), instants
(`Date` values) become integer milliseconds (`ℤ`), and the process-wide
mutable `AIService` instance becomes an explicit state record threaded through
the functions.  `Math.random()` results are threaded as explicit rational
parameters in `[0,1)`.  `localStorage` plus JSON (de)serialization is modelled
as the parsed index value itself (a key-ordered association list, matching a
JS object's insertion-order key semantics); with instants as millisecond
integers the `Date → ISO string → Date` round trip is exact, so serialization
is the identity on the model.
-/

/-! ## JavaScript string primitives -/

/-- JS regexp `\w` (as used in `replace(/[^\w\s]/g, '')`): ASCII letters,
digits and underscore. -/
def jsWordChar (c : Char) : Bool :=
  c.isAlphanum || c = '_'

/-- JS regexp `\s`, restricted to the ASCII whitespace that occurs in this
code base's strings. -/
def jsWhitespaceChar (c : Char) : Bool :=
  c = ' ' || c = '\t' || c = '\n' || c = '\r' || c = '\x0b' || c = '\x0c'

/-- `s.replace(/[^\w\s]/g, '')`: delete every character that is neither a
word character nor whitespace. -/
def stripPunct (s : String) : String :=
  String.mk (s.toList.filter (fun c => jsWordChar c || jsWhitespaceChar c))

/-- JS `toLowerCase()` on the ASCII strings of this code base, character by
character.  (A structural re-statement of `String.toLower`, kept
kernel-reducible.) -/
def jsToLower (s : String) : String :=
  String.mk (s.data.map Char.toLower)

/-- Split a character list at every character satisfying `p`, dropping the
separators and keeping empty chunks — the chunk semantics shared by JS
`split` (with a single-character pattern) and Lean's `String.split`. -/
def splitChars (p : Char → Bool) : List Char → List (List Char)
  | [] => [[]]
  | c :: rest =>
    match splitChars p rest with
    | [] => [[c]]
    | chunk :: chunks =>
      if p c then [] :: chunk :: chunks else (c :: chunk) :: chunks

/-- JS `s.split(pattern)` for a pattern matching single characters via `p`. -/
def jsSplit (s : String) (p : Char → Bool) : List String :=
  (splitChars p s.data).map String.mk

/-- JS `s.trim()`: strip leading and trailing whitespace. -/
def jsTrim (s : String) : String :=
  String.mk
    (((s.data.dropWhile jsWhitespaceChar).reverse.dropWhile
      jsWhitespaceChar).reverse)

/-- Does `needle` occur as a contiguous sublist of the character list `hay`?
(JS `String.prototype.includes`.) -/
def strContainsList (needle : List Char) : List Char → Bool
  | [] => needle.isEmpty
  | c :: rest => needle.isPrefixOf (c :: rest) || strContainsList needle rest

/-- JS `hay.includes(needle)`. -/
def strContains (hay needle : String) : Bool :=
  strContainsList needle.toList hay.toList

/-- Number of non-overlapping occurrences of `needle` in `hay`, scanning left
to right — the length of `hay.match(new RegExp(needle, 'g'))` for a pattern
without metacharacters (the only way the source calls it: its needles are
keywords of word characters only, and non-empty). -/
def countOccurAux (needle : List Char) : Nat → List Char → Nat
  | 0, _ => 0
  | _, [] => 0
  | fuel + 1, c :: rest =>
    if needle.isPrefixOf (c :: rest) then
      1 + countOccurAux needle fuel (rest.drop (needle.length - 1))
    else
      countOccurAux needle fuel rest

/-- The scan of `countOccurAux`, with enough fuel to finish: after a match
the scan skips the matched characters, after a miss it advances by one, so
`hay.length` steps always suffice.  (Structural recursion on the fuel keeps
the definition kernel-reducible.) -/
def countOccurList (needle hay : List Char) : Nat :=
  countOccurAux needle hay.length hay

/-- Occurrence count on strings. -/
def countOccurrences (hay needle : String) : Nat :=
  countOccurList needle.toList hay.toList

/-- JS `String(n).padStart(2, '0')`. -/
def padStart2 (s : String) : String :=
  if s.length < 2 then String.mk (List.replicate (2 - s.length) '0') ++ s else s

/-- JS number truncation toward zero (`Math.trunc`), on exact rationals. -/
def ratTrunc (q : ℚ) : ℤ :=
  if 0 ≤ q then ⌊q⌋ else -⌊-q⌋

/-- JS remainder `a % b` (sign of the dividend, truncated quotient), on exact
rationals. -/
def jsFmod (a b : ℚ) : ℚ :=
  a - b * ratTrunc (a / b)

/-- JS `array[Math.floor(r * array.length)]` for a `Math.random()` result
`r`: for `r ∈ [0,1)` and a non-empty list the index is always in range, so
the default is never consulted. -/
def jsChoose (r : ℚ) (l : List String) : String :=
  l.getD (⌊r * l.length⌋).toNat ""

/-! ## A stable descending sort

`Array.prototype.sort` with comparator `(a, b) => key(b) - key(a)` is (per
ES2019) a stable sort by descending `key`.  It is modelled by an insertion
sort that processes elements left to right and inserts each one after all
already-placed elements of greater-or-equal key, which is stable. -/

/-- Insert `x` before the first element whose key is strictly smaller. -/
def insertByDesc {α β : Type} [LinearOrder β] (key : α → β) (x : α) :
    List α → List α
  | [] => [x]
  | y :: ys => if key y < key x then x :: y :: ys else y :: insertByDesc key x ys

/-- Stable sort by descending key. -/
def sortByDesc {α β : Type} [LinearOrder β] (key : α → β) (l : List α) :
    List α :=
  l.foldl (fun acc x => insertByDesc key x acc) []

theorem perm_insertByDesc {α β : Type} [LinearOrder β] (key : α → β) (x : α) :
    ∀ l : List α, (insertByDesc key x l).Perm (x :: l)
  | [] => List.Perm.refl _
  | y :: ys => by
    unfold insertByDesc
    by_cases h : key y < key x
    · simp [h]
    · simp only [h, if_false]
      exact ((perm_insertByDesc key x ys).cons y).trans (List.Perm.swap x y ys)

theorem mem_insertByDesc {α β : Type} [LinearOrder β] (key : α → β) (x a : α)
    (l : List α) : a ∈ insertByDesc key x l ↔ a = x ∨ a ∈ l := by
  have h := (perm_insertByDesc key x l).mem_iff (a := a)
  simpa using h

theorem sorted_insertByDesc {α β : Type} [LinearOrder β] (key : α → β) (x : α) :
    ∀ l : List α, l.Pairwise (fun a b => key b ≤ key a) →
      (insertByDesc key x l).Pairwise (fun a b => key b ≤ key a)
  | [], _ => List.pairwise_singleton _ _
  | y :: ys, h => by
    rcases List.pairwise_cons.mp h with ⟨hy, hys⟩
    unfold insertByDesc
    by_cases hk : key y < key x
    · simp only [hk, if_true]
      refine List.pairwise_cons.mpr ⟨?_, h⟩
      intro z hz
      rcases List.mem_cons.mp hz with rfl | hz
      · exact le_of_lt hk
      · exact le_trans (hy z hz) (le_of_lt hk)
    · simp only [hk, if_false]
      refine List.pairwise_cons.mpr ⟨?_, sorted_insertByDesc key x ys hys⟩
      intro z hz
      rcases (mem_insertByDesc key x z ys).mp hz with rfl | hz
      · exact le_of_not_lt hk
      · exact hy z hz

theorem filter_insertByDesc_neg {α β : Type} [LinearOrder β] (key : α → β)
    (x : α) (c : β) (hx : key x ≠ c) :
    ∀ l : List α, (insertByDesc key x l).filter (fun z => key z = c) =
      l.filter (fun z => key z = c)
  | [] => by simp [insertByDesc, hx]
  | y :: ys => by
    unfold insertByDesc
    by_cases hk : key y < key x
    · simp [hk, List.filter_cons, hx]
    · simp only [hk, if_false, List.filter_cons]
      rw [filter_insertByDesc_neg key x c hx ys]

theorem filter_eq_nil_of_lt {α β : Type} [LinearOrder β] (key : α → β) (c : β)
    (l : List α) (hl : l.Pairwise (fun a b => key b ≤ key a))
    (hhead : ∀ a ∈ l.head?, key a < c) :
    l.filter (fun z => key z = c) = [] := by
  cases l with
  | nil => rfl
  | cons y ys =>
    rcases List.pairwise_cons.mp hl with ⟨hy, _⟩
    have hyc : key y < c := hhead y rfl
    refine List.filter_eq_nil_iff.mpr ?_
    intro z hz
    have hzle : key z ≤ key y := by
      rcases List.mem_cons.mp hz with rfl | hz
      · exact le_refl _
      · exact hy z hz
    simp only [decide_eq_true_eq]
    exact ne_of_lt (lt_of_le_of_lt hzle hyc)

theorem filter_insertByDesc_pos {α β : Type} [LinearOrder β] (key : α → β)
    (x : α) (c : β) (hx : key x = c) :
    ∀ l : List α, l.Pairwise (fun a b => key b ≤ key a) →
      (insertByDesc key x l).filter (fun z => key z = c) =
        l.filter (fun z => key z = c) ++ [x]
  | [], _ => by simp [insertByDesc, hx]
  | y :: ys, h => by
    rcases List.pairwise_cons.mp h with ⟨hy, hys⟩
    unfold insertByDesc
    by_cases hk : key y < key x
    · simp only [hk, if_true]
      have hnil : (y :: ys).filter (fun z => key z = c) = [] := by
        refine filter_eq_nil_of_lt key c (y :: ys) h ?_
        intro a ha
        simp only [List.head?_cons, Option.mem_def, Option.some.injEq] at ha
        subst ha
        exact hx ▸ hk
      simp [List.filter_cons, hnil, hx]
    · simp only [hk, if_false, List.filter_cons]
      rw [filter_insertByDesc_pos key x c hx ys hys]
      by_cases hyc : key y = c
      · simp [hyc]
      · simp [hyc]

theorem sortByDescAux_sorted {α β : Type} [LinearOrder β] (key : α → β) :
    ∀ (l acc : List α), acc.Pairwise (fun a b => key b ≤ key a) →
      (l.foldl (fun acc x => insertByDesc key x acc) acc).Pairwise
        (fun a b => key b ≤ key a)
  | [], _, h => h
  | x :: xs, acc, h =>
    sortByDescAux_sorted key xs (insertByDesc key x acc)
      (sorted_insertByDesc key x acc h)

theorem sortByDesc_sorted {α β : Type} [LinearOrder β] (key : α → β)
    (l : List α) : (sortByDesc key l).Pairwise (fun a b => key b ≤ key a) :=
  sortByDescAux_sorted key l [] (List.Pairwise.nil)

theorem sortByDescAux_perm {α β : Type} [LinearOrder β] (key : α → β) :
    ∀ (l acc : List α),
      (l.foldl (fun acc x => insertByDesc key x acc) acc).Perm (acc ++ l)
  | [], acc => by simp
  | x :: xs, acc => by
    have h1 := sortByDescAux_perm key xs (insertByDesc key x acc)
    have h2 : (insertByDesc key x acc ++ xs).Perm (acc ++ x :: xs) :=
      ((perm_insertByDesc key x acc).append_right xs).trans
        List.perm_middle.symm
    exact h1.trans h2

theorem sortByDesc_perm {α β : Type} [LinearOrder β] (key : α → β)
    (l : List α) : (sortByDesc key l).Perm l := by
  simpa using sortByDescAux_perm key l []

theorem mem_sortByDesc {α β : Type} [LinearOrder β] (key : α → β)
    (l : List α) (a : α) : a ∈ sortByDesc key l ↔ a ∈ l :=
  (sortByDesc_perm key l).mem_iff

theorem sortByDescAux_filter {α β : Type} [LinearOrder β] (key : α → β)
    (c : β) : ∀ (l acc : List α), acc.Pairwise (fun a b => key b ≤ key a) →
      (l.foldl (fun acc x => insertByDesc key x acc) acc).filter
          (fun z => key z = c) =
        acc.filter (fun z => key z = c) ++ l.filter (fun z => key z = c)
  | [], acc, _ => by simp
  | x :: xs, acc, h => by
    have hrec := sortByDescAux_filter key c xs (insertByDesc key x acc)
      (sorted_insertByDesc key x acc h)
    simp only [List.foldl_cons] at hrec ⊢
    rw [hrec]
    by_cases hx : key x = c
    · rw [filter_insertByDesc_pos key x c hx acc h]
      simp [List.filter_cons, hx]
    · rw [filter_insertByDesc_neg key x c hx acc]
      simp [List.filter_cons, hx]

/-- Stability: the sublist of elements whose key equals any fixed value is
unchanged by the sort — equal-key elements keep their original order. -/
theorem sortByDesc_filter {α β : Type} [LinearOrder β] (key : α → β)
    (c : β) (l : List α) :
    (sortByDesc key l).filter (fun z => key z = c) =
      l.filter (fun z => key z = c) := by
  simpa using sortByDescAux_filter key c l [] List.Pairwise.nil

theorem head_sortByDesc_max {α β : Type} [LinearOrder β] (key : α → β)
    (l : List α) (x : α) (hx : x ∈ l) (h : α)
    (hh : (sortByDesc key l).head? = some h) : key x ≤ key h := by
  have hmem : x ∈ sortByDesc key l := (mem_sortByDesc key l x).mpr hx
  have hsorted := sortByDesc_sorted key l
  cases hs : sortByDesc key l with
  | nil => rw [hs] at hmem; cases hmem
  | cons y ys =>
    rw [hs] at hh hmem hsorted
    simp only [List.head?_cons, Option.some.injEq] at hh
    subst hh
    rcases List.mem_cons.mp hmem with rfl | hmem
    · exact le_refl _
    · exact (List.pairwise_cons.mp hsorted).1 x hmem

/-! ## Data model (src/services: transcript segments and the AI service state) -/

/-- `TranscriptSegment` of `youtubeService.ts` / `types/index.ts`: timestamped
slice of transcript text.  `start` and `duration` are JS numbers of seconds,
embedded as exact rationals. -/
structure TranscriptSegment where
  text : String
  start : ℚ
  duration : ℚ
deriving DecidableEq

/-- The private fields of the `AIService` class (its process-wide mutable
instance), as an explicit state record. -/
structure AIState where
  transcript : String
  segments : List TranscriptSegment
  videoTitle : String
  videoUrl : String
deriving DecidableEq

namespace AIService

/-- `AIService.setTranscript(transcript, segments, title?, url?)`: replaces the
whole video context (`title || ''` — a missing or empty title becomes `''`).
The forwarding to the remote provider is a side effect on an external
collaborator, outside the state modelled here. -/
def setTranscript (_st : AIState) (transcript : String)
    (segments : List TranscriptSegment) (title url : Option String) : AIState :=
  { transcript := transcript
    segments := segments
    videoTitle := title.getD ""
    videoUrl := url.getD "" }

/-- The stop-word list of `extractKeywords`. -/
def stopWords : List String :=
  ["what", "how", "when", "where", "why", "who", "is", "are", "the", "a",
   "an", "and", "or", "but", "in", "on", "at", "to", "for", "of", "with",
   "by", "about"]

/-- `question.toLowerCase().replace(/[^\w\s]/g, '').split(/\s+/)`: the raw
token list `extractKeywords` filters.  (Splitting at each whitespace
character rather than at runs differs only by empty tokens, which the
length-filter below discards.) -/
def questionTokens (question : String) : List String :=
  jsSplit (stripPunct (jsToLower question)) (fun c => jsWhitespaceChar c)

/-- `AIService.extractKeywords`: lowercase, strip punctuation, split on
whitespace, drop tokens of length ≤ 2 and stop-words, keep the first 8. -/
def extractKeywords (question : String) : List String :=
  ((questionTokens question).filter
    (fun word => decide (2 < word.length) && !(stopWords.contains word))).take 8

/-- The score the segment-matching loop of `findRelevantSegments` gives one
segment: for each keyword that occurs in the lowercased segment text, add
twice its number of occurrences. -/
def segScore (keywords : List String) (segment : TranscriptSegment) : Nat :=
  keywords.foldl
    (fun score keyword =>
      let segmentText := jsToLower segment.text
      let keywordLower := jsToLower keyword
      if strContains segmentText keywordLower then
        score + countOccurrences segmentText keywordLower * 2
      else score)
    0

/-- The `relevantSegments` array `findRelevantSegments` builds: each segment
paired with its score, in original order, segments of score 0 excluded. -/
def scoredSegments (keywords : List String) (segments : List TranscriptSegment) :
    List (TranscriptSegment × Nat) :=
  segments.filterMap (fun segment =>
    let score := segScore keywords segment
    if 0 < score then some (segment, score) else none)

/-- `AIService.findRelevantSegments`: score the stored segments against the
question's keywords, drop score 0, stable-sort descending by score, return
the first 3 segments. -/
def findRelevantSegments (st : AIState) (question : String) :
    List TranscriptSegment :=
  (((sortByDesc (fun item => item.2)
      (scoredSegments (extractKeywords question) st.segments)).take 3).map
    (fun item => item.1))

/-- The result type of `categorizeQuestion`. -/
inductive QuestionCategory where
  | summary
  | explanation
  | exampleCat
  | process
  | defaultCat
deriving DecidableEq

/-- `AIService.categorizeQuestion`: first matching rule wins, in source
order.  (The source's `'example'` and `'default'` literals are `exampleCat`
and `defaultCat` here: both words are Lean keywords.) -/
def categorizeQuestion (question : String) : QuestionCategory :=
  let questionLower := jsToLower question
  if strContains questionLower "summary" || strContains questionLower "summarize"
      || strContains questionLower "main points" then .summary
  else if strContains questionLower "how" || strContains questionLower "explain"
      || strContains questionLower "what is" then .explanation
  else if strContains questionLower "example"
      || strContains questionLower "demonstrate"
      || strContains questionLower "show me" then .exampleCat
  else if strContains questionLower "process"
      || strContains questionLower "steps"
      || strContains questionLower "method" then .process
  else .defaultCat

/-- The result type of `categorizeGeneralQuestion`. -/
inductive GeneralCategory where
  | technology
  | business
  | learning
  | general
deriving DecidableEq

/-- `AIService.categorizeGeneralQuestion`: fixed keyword sets per category,
technology first, then business, then learning, else general. -/
def categorizeGeneralQuestion (question : String) : GeneralCategory :=
  let questionLower := jsToLower question
  let techKeywords := ["programming", "code", "software", "technology", "ai",
    "machine learning", "web development", "app"]
  let businessKeywords := ["business", "marketing", "brand", "startup",
    "entrepreneur", "strategy", "sales"]
  let learningKeywords := ["learn", "study", "education", "skill", "course",
    "tutorial", "practice"]
  if techKeywords.any (fun keyword => strContains questionLower keyword) then
    .technology
  else if businessKeywords.any (fun keyword => strContains questionLower keyword) then
    .business
  else if learningKeywords.any (fun keyword => strContains questionLower keyword) then
    .learning
  else .general

/-- The video-discourse keyword list of `isQuestionVideoRelated`. -/
def videoKeywords : List String :=
  ["video", "transcript", "speaker", "mentioned", "discussed", "explained",
   "said", "talked about", "covered", "example", "demonstration", "tutorial",
   "lesson", "content", "topic", "subject", "timestamp", "minute", "second"]

/-- `AIService.hasTranscriptOverlap`: false on an empty transcript, else true
iff some question word of length > 3 (split at single spaces, lowercased)
occurs in the lowercased transcript. -/
def hasTranscriptOverlap (st : AIState) (question : String) : Bool :=
  if st.transcript = "" then false
  else
    let questionWords := (jsSplit (jsToLower question) (fun c => c = ' ')).filter
      (fun word => decide (3 < word.length))
    let transcriptLower := jsToLower st.transcript
    questionWords.any (fun word => strContains transcriptLower word)

/-- `AIService.isQuestionVideoRelated`: a video-discourse keyword occurs in
the question, or a title word of length > 3 does, or the question overlaps
the transcript. -/
def isQuestionVideoRelated (st : AIState) (question : String) : Bool :=
  let questionLower := jsToLower question
  let titleWords := (jsSplit (jsToLower st.videoTitle) (fun c => c = ' ')).filter
    (fun word => decide (3 < word.length))
  videoKeywords.any (fun keyword => strContains questionLower keyword)
    || titleWords.any (fun word => strContains questionLower word)
    || hasTranscriptOverlap st question

/-- The importance keyword list of `isImportantSentence`. -/
def importantKeywords : List String :=
  ["example", "specifically", "important", "key", "main", "essential",
   "timestamp", "minute", "second", "explains", "demonstrates", "shows"]

/-- `AIService.isImportantSentence`. -/
def isImportantSentence (sentence : String) : Bool :=
  importantKeywords.any (fun keyword => strContains (jsToLower sentence) keyword)

/-- `content.split(/[.!?]+/).filter(s => s.trim().length > 0)` — the sentence
list of `makeBriefContent`.  (Splitting at each punctuation character rather
than at runs differs only by empty chunks, which the filter discards.) -/
def sentencesOf (content : String) : List String :=
  (jsSplit content (fun c => c = '.' || c = '!' || c = '?')).filter
    (fun s => decide (0 < (jsTrim s).length))

/-- `AIService.makeBriefContent`: content of at most two sentences is
returned unchanged; otherwise keep the trimmed first sentence with a period,
and append the trimmed second sentence (with a period) only when it is under
100 characters and important. -/
def makeBriefContent (content : String) : String :=
  let sentences := sentencesOf content
  if sentences.length ≤ 2 then content
  else
    match sentences with
    | [] => content
    | first :: rest =>
      let briefContent := jsTrim first ++ "."
      match rest with
      | [] => briefContent
      | second :: _ =>
        let secondSentence := jsTrim second
        if decide (secondSentence.length < 100)
            && isImportantSentence secondSentence then
          briefContent ++ " " ++ secondSentence ++ "."
        else briefContent

/-- `AIService.formatTimestamp`: `MM:SS`, minutes `Math.floor(seconds / 60)`,
seconds `Math.floor(seconds % 60)` zero-padded to two digits. -/
def formatTimestamp (seconds : ℚ) : String :=
  let minutes : ℤ := ⌊seconds / 60⌋
  let remainingSeconds : ℤ := ⌊jsFmod seconds 60⌋
  toString minutes ++ ":" ++ padStart2 (toString remainingSeconds)

end AIService

/-! ## Conversation store (the `VideoChatStorage` class of `ChatInterface.tsx`)

`localStorage` under the single key `askvid_video_chats` plus
`JSON.parse`/`JSON.stringify` is modelled by the parsed index itself: an
association list from videoId to session list whose entry order is a JS
object's key insertion order.  `Date` instants are integer milliseconds, so
the ISO-string round trip the source performs is the identity here. -/

/-- `ChatMessage.type` (`'user' | 'assistant'`). -/
inductive MessageRole where
  | user
  | assistant
deriving DecidableEq

/-- `ChatMessage` of `types/index.ts`. -/
structure ChatMessage where
  id : String
  type : MessageRole
  content : String
  timestamp : ℤ
  relevantTimestamp : Option String := none
deriving DecidableEq

/-- `ChatSession` of `ChatInterface.tsx`. -/
structure ChatSession where
  id : String
  title : String
  messages : List ChatMessage
  createdAt : ℤ
  videoId : String
  videoTitle : String
deriving DecidableEq

/-- The parsed content of the `askvid_video_chats` storage key: videoId →
session list, in key insertion order. -/
abbrev VideoChatIndex : Type := List (String × List ChatSession)

namespace VideoChatStorage

/-- JS `videoId in allChats` (key presence). -/
def objHas (idx : VideoChatIndex) (videoId : String) : Bool :=
  idx.any (fun entry => entry.1 == videoId)

/-- JS `allChats[videoId]` (`none` for an absent key). -/
def objGet (idx : VideoChatIndex) (videoId : String) :
    Option (List ChatSession) :=
  List.lookup videoId idx

/-- JS `allChats[videoId] = sessions`: overwrite in place when the key is
present, else append it (a JS object keeps key insertion order). -/
def objSet (idx : VideoChatIndex) (videoId : String)
    (sessions : List ChatSession) : VideoChatIndex :=
  if objHas idx videoId then
    idx.map (fun entry =>
      if entry.1 == videoId then (videoId, sessions) else entry)
  else idx ++ [(videoId, sessions)]

/-- JS `delete allChats[videoId]`. -/
def objErase (idx : VideoChatIndex) (videoId : String) : VideoChatIndex :=
  idx.filter (fun entry => !(entry.1 == videoId))

/-- The date-revival map `getVideoChats` applies to each stored session
(`new Date(session.createdAt)` and per message `new Date(msg.timestamp)`);
with instants as millisecond integers it recreates the same values. -/
def reviveSession (session : ChatSession) : ChatSession :=
  { session with
    createdAt := session.createdAt
    messages := session.messages.map (fun msg =>
      { msg with timestamp := msg.timestamp }) }

/-- `VideoChatStorage.getVideoChats(videoId)`: the stored list (empty when
absent), dates revived. -/
def getVideoChats (idx : VideoChatIndex) (videoId : String) :
    List ChatSession :=
  ((objGet idx videoId).getD []).map reviveSession

/-- `VideoChatStorage.saveVideoChats(videoId, sessions)`: replace the whole
session list for the key and write the index back. -/
def saveVideoChats (idx : VideoChatIndex) (videoId : String)
    (sessions : List ChatSession) : VideoChatIndex :=
  objSet idx videoId sessions

/-- `VideoChatStorage.deleteVideoChat(videoId, sessionId)`: drop the session
with that id; when the remaining list is empty, delete the key. -/
def deleteVideoChat (idx : VideoChatIndex) (videoId sessionId : String) :
    VideoChatIndex :=
  if objHas idx videoId then
    let remaining := ((objGet idx videoId).getD []).filter
      (fun session => !(session.id == sessionId))
    if remaining.isEmpty then objErase idx videoId
    else objSet idx videoId remaining
  else idx

/-- One row of `getAllVideosWithChats`. -/
structure VideoWithChats where
  videoId : String
  videoTitle : String
  chatCount : Nat
  lastActivity : ℤ
deriving DecidableEq

/-- The `reduce` of `getAllVideosWithChats`: latest `createdAt` among the
sessions, starting from `new Date(0)`. -/
def lastActivityOf (sessions : List ChatSession) : ℤ :=
  sessions.foldl
    (fun latest session =>
      if latest < session.createdAt then session.createdAt else latest)
    0

/-- `sessions[0]?.videoTitle || 'Unknown Video'` (JS `||`: an empty title is
falsy too). -/
def videoTitleOf (sessions : List ChatSession) : String :=
  let t := ((sessions.head?).map (fun s => s.videoTitle)).getD ""
  if t = "" then "Unknown Video" else t

/-- `VideoChatStorage.getAllVideosWithChats()`: one row per stored video,
sorted by `lastActivity` descending (`sort` is stable). -/
def getAllVideosWithChats (idx : VideoChatIndex) : List VideoWithChats :=
  sortByDesc (fun row => row.lastActivity)
    (idx.map (fun entry =>
      { videoId := entry.1
        videoTitle := videoTitleOf entry.2
        chatCount := entry.2.length
        lastActivity := lastActivityOf entry.2 }))

end VideoChatStorage

/-! ## Detailed response composition (`generateDetailedResponse` and its
fallback).  The template tables are transcribed verbatim from the source;
`Math.random()` draws are threaded as rational parameters. -/

/-- `AIResponse` of `aiService.ts`. -/
structure AIResponse where
  content : String
  confidence : ℚ
  relevantSegments : List TranscriptSegment
  timestamp : Option String := none
  isVideoRelated : Option Bool := none

namespace AIService

/-- Template of `generateDetailedVideoResponse` (`summary`, first). -/
def detailedVideoSummary0 (primarySegment : TranscriptSegment)
    (rest : List TranscriptSegment) : String :=
  "Based on my comprehensive analysis of the video content, here's a detailed summary of what's covered at "
    ++ (formatTimestamp primarySegment.start)
    ++ ":\n\n\""
    ++ primarySegment.text
    ++ "\"\n\nThis section provides a thorough overview of the key concepts discussed. The video systematically breaks down the topic into digestible components, offering both theoretical foundations and practical applications. "
    ++ (match rest with | [] => "" | s2 :: _ => "Additional context is provided at "
    ++ (formatTimestamp s2.start)
    ++ ", where the discussion expands on related concepts and provides supporting examples.")
    ++ "\n\nThe comprehensive approach taken in this video ensures that viewers gain both surface-level understanding and deeper insights into the subject matter."

/-- Template of `generateDetailedVideoResponse` (`summary`, second). -/
def detailedVideoSummary1 (primarySegment : TranscriptSegment)
    (rest : List TranscriptSegment) : String :=
  "Let me provide you with an in-depth summary of the content discussed at "
    ++ (formatTimestamp primarySegment.start)
    ++ ":\n\n\""
    ++ primarySegment.text
    ++ "\"\n\nThis segment represents a crucial part of the video's educational framework. The presenter methodically addresses the core principles while ensuring that complex concepts are made accessible to viewers with varying levels of expertise. The discussion builds upon foundational knowledge and progressively introduces more sophisticated ideas.\n\n"
    ++ (match rest with | [] => "" | s2 :: _ => "The narrative continues at "
    ++ (formatTimestamp s2.start)
    ++ " with complementary information that reinforces the main themes.")
    ++ " This structured approach demonstrates the video's commitment to comprehensive education rather than superficial coverage of the topic."

/-- Template of `generateDetailedVideoResponse` (`explanation`, first). -/
def detailedVideoExplanation0 (primarySegment : TranscriptSegment)
    (rest : List TranscriptSegment) : String :=
  "The video provides an excellent detailed explanation starting at "
    ++ (formatTimestamp primarySegment.start)
    ++ ":\n\n\""
    ++ primarySegment.text
    ++ "\"\n\nThis explanation is particularly valuable because it breaks down complex concepts into understandable components. The presenter uses a methodical approach, first establishing the foundational principles before building upon them with more advanced concepts. This pedagogical strategy ensures that viewers can follow along regardless of their initial knowledge level.\n\nThe explanation demonstrates several key characteristics of effective teaching: clarity of communication, logical progression of ideas, and the use of concrete examples to illustrate abstract concepts. "
    ++ (match rest with | [] => "" | s2 :: _ => "Further elaboration occurs at "
    ++ (formatTimestamp s2.start)
    ++ ", where additional nuances and practical applications are explored.")
    ++ "\n\nThis comprehensive approach to explanation makes the content both accessible and thorough, providing viewers with a solid understanding that they can build upon."

/-- Template of `generateDetailedVideoResponse` (`explanation`, second). -/
def detailedVideoExplanation1 (primarySegment : TranscriptSegment)
    (rest : List TranscriptSegment) : String :=
  "Here's a comprehensive breakdown of the explanation provided at "
    ++ (formatTimestamp primarySegment.start)
    ++ ":\n\n\""
    ++ primarySegment.text
    ++ "\"\n\nThe explanation follows a well-structured format that begins with fundamental concepts and gradually introduces more sophisticated elements. This approach is particularly effective because it allows viewers to build their understanding incrementally, ensuring that each new concept is properly grounded in previously established knowledge.\n\nWhat makes this explanation particularly valuable is its attention to both theoretical understanding and practical application. The presenter doesn't just explain what something is, but also why it matters and how it can be applied in real-world scenarios. "
    ++ (match rest with | [] => "" | s2 :: _ => "This theme continues at "
    ++ (formatTimestamp s2.start)
    ++ " with additional examples and case studies.")
    ++ "\n\nThe depth and clarity of this explanation make it an excellent resource for anyone seeking to develop a thorough understanding of the topic."

/-- Template of `generateDetailedVideoResponse` (`example`, first). -/
def detailedVideoExample0 (primarySegment : TranscriptSegment)
    (rest : List TranscriptSegment) : String :=
  "The video presents an excellent practical example at "
    ++ (formatTimestamp primarySegment.start)
    ++ ":\n\n\""
    ++ primarySegment.text
    ++ "\"\n\nThis example is particularly effective because it demonstrates real-world application of the concepts being discussed. Rather than remaining in the realm of theory, the presenter grounds the discussion in concrete, relatable scenarios that viewers can easily understand and potentially apply in their own contexts.\n\nThe example serves multiple educational purposes: it clarifies abstract concepts by showing them in action, it demonstrates the practical value of the knowledge being shared, and it provides a template that viewers can adapt to their own situations. "
    ++ (match rest with | [] => "" | s2 :: _ => "Additional examples and case studies are presented at "
    ++ (formatTimestamp s2.start)
    ++ ", further reinforcing the practical applications.")
    ++ "\n\nThis approach of combining theoretical knowledge with practical examples creates a more complete learning experience and helps ensure that viewers can translate their understanding into actionable insights."

/-- Template of `generateDetailedVideoResponse` (`example`, second). -/
def detailedVideoExample1 (primarySegment : TranscriptSegment)
    (rest : List TranscriptSegment) : String :=
  "Let me walk you through the detailed example provided at "
    ++ (formatTimestamp primarySegment.start)
    ++ ":\n\n\""
    ++ primarySegment.text
    ++ "\"\n\nThis example is masterfully chosen because it illustrates the key principles in a way that's both accessible and comprehensive. The presenter takes care to explain not just what is happening in the example, but why each step is important and how it contributes to the overall outcome.\n\nWhat makes this example particularly valuable is its attention to detail and context. Rather than presenting a simplified scenario that might not reflect real-world complexity, the example acknowledges the nuances and challenges that practitioners actually face. "
    ++ (match rest with | [] => "" | s2 :: _ => "This realistic approach continues at "
    ++ (formatTimestamp s2.start)
    ++ " with additional scenarios and variations.")
    ++ "\n\nBy providing such detailed, realistic examples, the video ensures that viewers gain practical knowledge they can actually use, rather than just theoretical understanding that might be difficult to apply."

/-- Template of `generateDetailedVideoResponse` (`default`, first). -/
def detailedVideoDefault0 (primarySegment : TranscriptSegment)
    (rest : List TranscriptSegment) : String :=
  "Based on my detailed analysis of the video content at "
    ++ (formatTimestamp primarySegment.start)
    ++ ":\n\n\""
    ++ primarySegment.text
    ++ "\"\n\nThis section represents a significant contribution to the overall educational value of the video. The content is presented with careful attention to both depth and accessibility, ensuring that viewers can engage with complex ideas without becoming overwhelmed.\n\nThe discussion demonstrates several important characteristics: comprehensive coverage of the topic, clear communication of key concepts, and thoughtful consideration of the audience's needs and knowledge level. "
    ++ (match rest with | [] => "" | s2 :: _ => "The content builds upon itself, with additional insights provided at "
    ++ (formatTimestamp s2.start)
    ++ " that expand and deepen the initial discussion.")
    ++ "\n\nThis thorough approach to content creation reflects the video's commitment to providing genuine educational value rather than superficial coverage of important topics."

/-- Template of `generateDetailedVideoResponse` (`default`, second). -/
def detailedVideoDefault1 (primarySegment : TranscriptSegment)
    (rest : List TranscriptSegment) : String :=
  "Here's a comprehensive analysis of the content discussed at "
    ++ (formatTimestamp primarySegment.start)
    ++ ":\n\n\""
    ++ primarySegment.text
    ++ "\"\n\nThis segment exemplifies the video's overall approach to education: thorough, thoughtful, and designed to provide lasting value to viewers. The content is structured in a way that builds understanding progressively, ensuring that each new piece of information is properly contextualized within the broader framework of the topic.\n\nThe presentation style demonstrates respect for the audience's intelligence while remaining accessible to viewers with varying levels of background knowledge. "
    ++ (match rest with | [] => "" | s2 :: _ => "This balanced approach continues throughout the video, with complementary information at "
    ++ (formatTimestamp s2.start)
    ++ " that reinforces and expands upon the main themes.")
    ++ "\n\nThe result is content that is both immediately useful and provides a foundation for continued learning and exploration of the topic."

/-- Template of `generateDetailedVideoGeneralResponse` (first). -/
def detailedVideoGeneral0 (st : AIState) : String :=
  "I've conducted a thorough analysis of \""
    ++ st.videoTitle
    ++ "\" and while I couldn't locate specific information directly addressing your question in the transcript, I can provide some context about what the video does cover.\n\nThe video focuses on several key areas that might be related to your inquiry. The content is structured to provide comprehensive coverage of the main topic, with detailed explanations and practical examples throughout. The presenter takes a methodical approach, building concepts progressively and ensuring that viewers develop a solid understanding of the subject matter.\n\nTo get the most relevant information for your specific question, I'd recommend asking about the main themes discussed in the video, specific concepts that are explained, or particular examples that are provided. You could also try rephrasing your question to focus on aspects that are more directly covered in the video content.\n\nThe video's comprehensive approach means that even if your exact question isn't directly addressed, there's likely related information that could be valuable for your understanding of the topic."

/-- Template of `generateDetailedVideoGeneralResponse` (second). -/
def detailedVideoGeneral1 (st : AIState) : String :=
  "After analyzing the complete transcript of \""
    ++ st.videoTitle
    ++ "\", I wasn't able to find specific content that directly addresses your particular question. However, let me provide you with some context about the video's scope and approach that might be helpful.\n\nThe video is designed as a comprehensive educational resource that covers multiple aspects of the main topic. The presenter uses a structured approach that combines theoretical foundations with practical applications, ensuring that viewers gain both conceptual understanding and actionable insights.\n\nWhile your specific question may not be directly addressed, the video likely contains related information that could be valuable. The content is organized in a way that builds understanding progressively, so there may be foundational concepts or related topics that would help inform your inquiry.\n\nI'd suggest asking about the main topics covered in the video, specific methodologies or approaches discussed, or particular examples and case studies presented. This might help you find the information you're looking for or discover related insights that are equally valuable."

/-- Template of `generateDetailedGeneralResponse` (`technology`, first). -/
def detailedGeneralTech0 : String :=
  "That's an excellent technology question that touches on some fascinating and rapidly evolving areas of the field. Technology topics like this require careful consideration of multiple factors including current best practices, emerging trends, and practical implementation considerations.\n\nTo provide you with the most accurate and comprehensive information, I'd recommend consulting several types of resources: official documentation from relevant technology providers, current industry publications and research papers, community forums where practitioners share real-world experiences, and educational platforms that offer structured learning paths.\n\nThe technology landscape evolves so rapidly that what's considered best practice today might be outdated in just a few months. This is why it's particularly important to seek out current, authoritative sources and to understand not just the \"what\" but also the \"why\" behind different approaches.\n\nFor detailed technical guidance, I'd especially recommend checking the official documentation, GitHub repositories with active communities, and recent conference talks or webinars from industry experts. These sources tend to provide the most current and practical insights.\n\nFor unlimited detailed conversations and comprehensive technical discussions, please add your Gemini API key to unlock full AI capabilities."

/-- Template of `generateDetailedGeneralResponse` (`technology`, second). -/
def detailedGeneralTech1 : String :=
  "Your technology question addresses an important area that requires both theoretical understanding and practical experience to fully grasp. Technology topics like this often involve complex interactions between different systems, tools, and methodologies.\n\nFor comprehensive information on this topic, I'd suggest exploring multiple types of resources to get a well-rounded understanding. Technical documentation provides the foundational knowledge and specifications you need. Industry blogs and publications offer insights into real-world applications and emerging trends. Community forums and discussion platforms give you access to practitioners' experiences and problem-solving approaches.\n\nIt's also worth considering that technology solutions often depend heavily on specific contexts, requirements, and constraints. What works well in one situation might not be optimal in another. This is why it's valuable to understand not just the technical details, but also the decision-making frameworks that help determine when and how to apply different approaches.\n\nFor the most current and detailed information, I'd recommend focusing on resources that are actively maintained and regularly updated, as the technology field evolves continuously.\n\nWith your Gemini API key configured, I could provide detailed technical discussions, code examples, and comprehensive analysis tailored to your specific needs."

/-- Template of `generateDetailedGeneralResponse` (`business`, first). -/
def detailedGeneralBusiness0 : String :=
  "That's a thoughtful business question that touches on some fundamental aspects of strategy and operations. Business topics like this often involve multiple interconnected factors including market dynamics, organizational capabilities, customer needs, and competitive positioning.\n\nFor comprehensive insights on this topic, I'd recommend exploring several types of business resources. Academic business publications provide research-backed frameworks and theoretical foundations. Industry reports and market analyses offer current data and trend insights. Case studies from successful companies demonstrate practical applications and real-world outcomes.\n\nBusiness strategy is particularly context-dependent, meaning that what works for one organization might not be directly applicable to another. Factors like company size, industry sector, market position, available resources, and organizational culture all play crucial roles in determining the most effective approaches.\n\nI'd suggest consulting current business publications, speaking with industry professionals who have relevant experience, and examining case studies from companies that face similar challenges or opportunities. Professional business networks and industry associations can also provide valuable insights and connections to experts in the field.\n\nThe key is to gather information from multiple perspectives and then adapt the insights to your specific situation and constraints.\n\nFor detailed business discussions and strategic analysis, please add your Gemini API key to unlock comprehensive AI capabilities."

/-- Template of `generateDetailedGeneralResponse` (`business`, second). -/
def detailedGeneralBusiness1 : String :=
  "Your business question addresses an important strategic area that requires careful analysis of multiple factors and stakeholder perspectives. Business topics like this often involve balancing competing priorities and making decisions with incomplete information.\n\nTo develop a comprehensive understanding of this topic, I'd recommend taking a multi-faceted approach to research and analysis. Start with foundational business literature that provides frameworks for thinking about the issue. Then examine current market research and industry reports that offer data-driven insights into trends and best practices.\n\nCase studies are particularly valuable for business topics because they show how theoretical concepts play out in real-world situations. Look for examples from companies that have faced similar challenges or pursued similar opportunities. Pay attention not just to what they did, but also to their decision-making process and the factors they considered.\n\nIt's also important to consider the broader business environment, including economic conditions, regulatory factors, technological changes, and social trends that might impact the situation. Business decisions rarely exist in isolation, and understanding the broader context is crucial for developing effective strategies.\n\nFor the most current and relevant insights, I'd recommend consulting recent publications, attending industry events, and connecting with professionals who have direct experience in this area.\n\nWith Gemini AI enabled, I could provide comprehensive business analysis and strategic discussions tailored to your specific context."

/-- Template of `generateDetailedGeneralResponse` (`learning`, first). -/
def detailedGeneralLearning0 : String :=
  "That's an excellent question about learning and skill development. Effective learning is a complex process that involves understanding how our brains process and retain information, as well as how to create optimal conditions for knowledge acquisition and skill development.\n\nFor comprehensive guidance on learning topics like this, I'd recommend exploring educational research that provides evidence-based insights into effective learning strategies. Cognitive science research offers valuable understanding of how memory works and how to optimize retention. Educational psychology provides frameworks for understanding motivation, engagement, and the factors that support successful learning.\n\nLearning is highly individual, and what works best can vary significantly from person to person based on factors like learning style preferences, prior knowledge, available time, and personal goals. This is why it's valuable to understand multiple approaches and experiment to find what works best for your specific situation.\n\nI'd suggest looking into resources from educational institutions, learning science researchers, and platforms that specialize in skill development. Many universities publish research on effective learning strategies, and there are numerous books and online resources that translate this research into practical guidance.\n\nThe key is to approach learning strategically, understanding not just what to learn but how to learn most effectively. This includes techniques for active learning, spaced repetition, deliberate practice, and creating supportive learning environments.\n\nFor personalized learning guidance and detailed educational discussions, please add your Gemini API key to unlock full AI tutoring capabilities."

/-- Template of `generateDetailedGeneralResponse` (`learning`, second). -/
def detailedGeneralLearning1 : String :=
  "Your learning question touches on some fundamental aspects of how we acquire knowledge and develop skills. Learning science has made significant advances in recent years, providing us with evidence-based insights into what makes learning most effective.\n\nFor detailed guidance on learning topics like this, I'd recommend exploring several types of resources. Educational research provides the scientific foundation for understanding how learning works. Practical guides from learning experts offer strategies and techniques you can implement immediately. Case studies from successful learners show how these principles apply in real-world situations.\n\nEffective learning often involves understanding and applying several key principles: active engagement with the material, spaced repetition to strengthen memory, deliberate practice to develop skills, and metacognition to monitor and adjust your learning process. The specific application of these principles can vary depending on what you're trying to learn and your personal circumstances.\n\nI'd suggest consulting recent educational research, books by learning experts, and platforms that specialize in skill development. Many online learning platforms also incorporate evidence-based learning principles into their design, which can provide both content and effective learning experiences.\n\nThe most important thing is to approach learning as a skill itself that can be developed and improved over time. Understanding how to learn effectively is one of the most valuable investments you can make in your personal and professional development.\n\nWith Gemini AI configured, I could provide personalized learning strategies and comprehensive educational support."

/-- Template of `generateDetailedGeneralResponse` (`general`, first). -/
def detailedGeneralDefault0 : String :=
  "That's a fascinating question that touches on some important and complex topics. Questions like this often involve multiple perspectives and require careful consideration of various factors and viewpoints.\n\nFor comprehensive information on this topic, I'd recommend taking a multi-source approach to research. Academic sources provide rigorous, peer-reviewed analysis and theoretical frameworks. Reputable news organizations and publications offer current information and diverse perspectives. Expert opinions from recognized authorities in the field provide specialized insights and professional experience.\n\nIt's important to consider that complex topics often don't have simple answers, and different experts may have varying viewpoints based on their experience, methodology, and perspective. This is why consulting multiple sources and understanding different approaches is so valuable.\n\nI'd suggest starting with authoritative sources that provide foundational information, then exploring more specialized resources that address specific aspects of your question. Look for sources that cite their evidence, acknowledge limitations, and present information in a balanced way.\n\nCritical thinking is essential when researching complex topics. Consider the source's credibility, the evidence presented, potential biases, and how different pieces of information fit together. The goal is to develop a well-informed understanding that acknowledges both what is known and what remains uncertain or debated.\n\nFor the most current and reliable information, focus on recent publications from reputable sources and consider consulting with experts who have relevant experience and credentials.\n\nFor detailed exploration of any topic with comprehensive analysis, please add your Gemini API key to unlock full conversational AI capabilities."

/-- Template of `generateDetailedGeneralResponse` (`general`, second). -/
def detailedGeneralDefault1 : String :=
  "Your question addresses an important topic that deserves thoughtful consideration and comprehensive research. Complex questions like this often benefit from examining multiple perspectives and understanding the various factors that influence the situation.\n\nTo develop a thorough understanding of this topic, I'd recommend approaching it systematically. Start with foundational sources that provide background information and context. Then explore more specialized resources that address specific aspects of your question in greater detail.\n\nIt's valuable to consider different types of evidence and perspectives: empirical research that provides data-driven insights, expert analysis that offers professional interpretation, historical context that shows how the topic has evolved over time, and practical examples that demonstrate real-world applications.\n\nWhen researching complex topics, it's important to maintain a critical perspective. Consider the credibility and potential biases of your sources, look for evidence that supports different viewpoints, and be aware of the limitations of any single source or perspective.\n\nI'd suggest consulting academic sources for rigorous analysis, professional publications for expert insights, and reputable news sources for current developments. Engaging with multiple perspectives will help you develop a more complete and nuanced understanding of the topic.\n\nThe goal is not necessarily to find a single \"correct\" answer, but rather to develop an informed understanding that acknowledges the complexity of the issue and the various factors that influence it.\n\nWith Gemini AI enabled, I could provide comprehensive analysis and detailed discussions on any topic you're interested in exploring."

/-- `AIService.generateDetailedVideoResponse`: pick a template for the
question's category (`process` has no entry of its own — `responses[t] ||
responses.default` falls back to `default`), interpolating the first matched
segment and, when present, the second.  Only ever called with a non-empty
segment list (the caller guards on it; JS would throw on `[]`). -/
def generateDetailedVideoResponse (rTemplate : ℚ) (question : String) :
    List TranscriptSegment → String
  | [] => ""
  | primarySegment :: rest =>
    let questionType := categorizeQuestion question
    let responseArray :=
      match questionType with
      | .summary =>
        [detailedVideoSummary0 primarySegment rest,
         detailedVideoSummary1 primarySegment rest]
      | .explanation =>
        [detailedVideoExplanation0 primarySegment rest,
         detailedVideoExplanation1 primarySegment rest]
      | .exampleCat =>
        [detailedVideoExample0 primarySegment rest,
         detailedVideoExample1 primarySegment rest]
      | .process =>
        [detailedVideoDefault0 primarySegment rest,
         detailedVideoDefault1 primarySegment rest]
      | .defaultCat =>
        [detailedVideoDefault0 primarySegment rest,
         detailedVideoDefault1 primarySegment rest]
    jsChoose rTemplate responseArray

/-- `AIService.generateDetailedVideoGeneralResponse`. -/
def generateDetailedVideoGeneralResponse (st : AIState) (rTemplate : ℚ)
    (_question : String) : String :=
  jsChoose rTemplate [detailedVideoGeneral0 st, detailedVideoGeneral1 st]

/-- `AIService.generateDetailedGeneralResponse`. -/
def generateDetailedGeneralResponse (rTemplate : ℚ) (question : String) :
    String :=
  let questionCategory := categorizeGeneralQuestion question
  let responseArray :=
    match questionCategory with
    | .technology => [detailedGeneralTech0, detailedGeneralTech1]
    | .business => [detailedGeneralBusiness0, detailedGeneralBusiness1]
    | .learning => [detailedGeneralLearning0, detailedGeneralLearning1]
    | .general => [detailedGeneralDefault0, detailedGeneralDefault1]
  jsChoose rTemplate responseArray

/-- `AIService.generateDetailedFallbackResponse` (the artificial delay is
timing, not modelled; `rTemplate` and `rConf` are the `Math.random()` draws
for template choice and confidence). -/
def generateDetailedFallbackResponse (st : AIState) (rTemplate rConf : ℚ)
    (question : String) : AIResponse :=
  let isVideoRelated := isQuestionVideoRelated st question
  let relevantSegments :=
    if isVideoRelated then findRelevantSegments st question else []
  let response :=
    if isVideoRelated && !relevantSegments.isEmpty then
      generateDetailedVideoResponse rTemplate question relevantSegments
    else if isVideoRelated then
      generateDetailedVideoGeneralResponse st rTemplate question
    else
      generateDetailedGeneralResponse rTemplate question
  { content := response
    confidence := 85 / 100 + rConf * (10 / 100)
    relevantSegments := relevantSegments
    timestamp :=
      match relevantSegments with
      | [] => none
      | seg :: _ => some (formatTimestamp seg.start)
    isVideoRelated := some isVideoRelated }

/-- The remote generation collaborator (`geminiService`), out of scope per
the spec: its configuration state and the outcome of
`generateDetailedResponse` are abstract. -/
structure GeminiService where
  configured : Bool
  detailedResponse : String → Except String AIResponse

/-- `AIService.generateDetailedResponse`: one remote attempt when the
provider reports itself configured; any error falls back to the local
generator, as does the unconfigured case. -/
def generateDetailedResponse (gemini : GeminiService) (st : AIState)
    (rTemplate rConf : ℚ) (question : String) : AIResponse :=
  if gemini.configured then
    match gemini.detailedResponse question with
    | .ok response => response
    | .error _ => generateDetailedFallbackResponse st rTemplate rConf question
  else
    generateDetailedFallbackResponse st rTemplate rConf question

end AIService

/-! ## C2: the fallback guarantee of `generateDetailedResponse` -/

theorem str_append_ne (s t : String) (h : s ≠ "") : s ++ t ≠ "" := by
  intro habs
  apply h
  have hlen := congrArg String.length habs
  rw [String.length_append] at hlen
  have hz : ("" : String).length = 0 := rfl
  rw [hz] at hlen
  have hs : s.length = 0 := by omega
  exact String.ext (List.length_eq_zero.mp hs)

theorem jsChoose_ne_empty (r : ℚ) (l : List String) (hr0 : 0 ≤ r)
    (hr1 : r < 1) (hl : l ≠ []) (h : ∀ x ∈ l, x ≠ "") : jsChoose r l ≠ "" := by
  have hlen : 0 < l.length := List.length_pos.mpr hl
  have hlenq : 0 < (l.length : ℚ) := by exact_mod_cast hlen
  have hfl0 : 0 ≤ ⌊r * (l.length : ℚ)⌋ :=
    Int.floor_nonneg.mpr (mul_nonneg hr0 hlenq.le)
  have hflub : ⌊r * (l.length : ℚ)⌋ < (l.length : ℤ) := by
    rw [Int.floor_lt]
    push_cast
    calc r * (l.length : ℚ) < 1 * (l.length : ℚ) :=
          mul_lt_mul_of_pos_right hr1 hlenq
      _ = (l.length : ℚ) := one_mul _
  have hidx : (⌊r * (l.length : ℚ)⌋).toNat < l.length := by omega
  have hget : jsChoose r l = l.get ⟨(⌊r * (l.length : ℚ)⌋).toNat, hidx⟩ := by
    simp [jsChoose, List.getD_eq_get, hidx]
  rw [hget]
  exact h _ (l.get_mem _ _)

namespace AIService

theorem detailedVideoSummary0_ne (p : TranscriptSegment)
    (rest : List TranscriptSegment) : detailedVideoSummary0 p rest ≠ "" := by
  unfold detailedVideoSummary0
  repeat apply str_append_ne
  decide

theorem detailedVideoSummary1_ne (p : TranscriptSegment)
    (rest : List TranscriptSegment) : detailedVideoSummary1 p rest ≠ "" := by
  unfold detailedVideoSummary1
  repeat apply str_append_ne
  decide

theorem detailedVideoExplanation0_ne (p : TranscriptSegment)
    (rest : List TranscriptSegment) : detailedVideoExplanation0 p rest ≠ "" := by
  unfold detailedVideoExplanation0
  repeat apply str_append_ne
  decide

theorem detailedVideoExplanation1_ne (p : TranscriptSegment)
    (rest : List TranscriptSegment) : detailedVideoExplanation1 p rest ≠ "" := by
  unfold detailedVideoExplanation1
  repeat apply str_append_ne
  decide

theorem detailedVideoExample0_ne (p : TranscriptSegment)
    (rest : List TranscriptSegment) : detailedVideoExample0 p rest ≠ "" := by
  unfold detailedVideoExample0
  repeat apply str_append_ne
  decide

theorem detailedVideoExample1_ne (p : TranscriptSegment)
    (rest : List TranscriptSegment) : detailedVideoExample1 p rest ≠ "" := by
  unfold detailedVideoExample1
  repeat apply str_append_ne
  decide

theorem detailedVideoDefault0_ne (p : TranscriptSegment)
    (rest : List TranscriptSegment) : detailedVideoDefault0 p rest ≠ "" := by
  unfold detailedVideoDefault0
  repeat apply str_append_ne
  decide

theorem detailedVideoDefault1_ne (p : TranscriptSegment)
    (rest : List TranscriptSegment) : detailedVideoDefault1 p rest ≠ "" := by
  unfold detailedVideoDefault1
  repeat apply str_append_ne
  decide

theorem generateDetailedVideoResponse_ne (rTemplate : ℚ) (question : String)
    (segments : List TranscriptSegment) (hseg : segments ≠ [])
    (hr0 : 0 ≤ rTemplate) (hr1 : rTemplate < 1) :
    generateDetailedVideoResponse rTemplate question segments ≠ "" := by
  match segments, hseg with
  | primarySegment :: rest, _ =>
    unfold generateDetailedVideoResponse
    cases categorizeQuestion question with
    | summary =>
      refine jsChoose_ne_empty _ _ hr0 hr1 (by simp) ?_
      intro x hx
      simp only [List.mem_cons, List.not_mem_nil, or_false] at hx
      rcases hx with rfl | rfl
      · exact detailedVideoSummary0_ne _ _
      · exact detailedVideoSummary1_ne _ _
    | explanation =>
      refine jsChoose_ne_empty _ _ hr0 hr1 (by simp) ?_
      intro x hx
      simp only [List.mem_cons, List.not_mem_nil, or_false] at hx
      rcases hx with rfl | rfl
      · exact detailedVideoExplanation0_ne _ _
      · exact detailedVideoExplanation1_ne _ _
    | exampleCat =>
      refine jsChoose_ne_empty _ _ hr0 hr1 (by simp) ?_
      intro x hx
      simp only [List.mem_cons, List.not_mem_nil, or_false] at hx
      rcases hx with rfl | rfl
      · exact detailedVideoExample0_ne _ _
      · exact detailedVideoExample1_ne _ _
    | process =>
      refine jsChoose_ne_empty _ _ hr0 hr1 (by simp) ?_
      intro x hx
      simp only [List.mem_cons, List.not_mem_nil, or_false] at hx
      rcases hx with rfl | rfl
      · exact detailedVideoDefault0_ne _ _
      · exact detailedVideoDefault1_ne _ _
    | defaultCat =>
      refine jsChoose_ne_empty _ _ hr0 hr1 (by simp) ?_
      intro x hx
      simp only [List.mem_cons, List.not_mem_nil, or_false] at hx
      rcases hx with rfl | rfl
      · exact detailedVideoDefault0_ne _ _
      · exact detailedVideoDefault1_ne _ _

theorem generateDetailedVideoGeneralResponse_ne (st : AIState) (rTemplate : ℚ)
    (question : String) (hr0 : 0 ≤ rTemplate) (hr1 : rTemplate < 1) :
    generateDetailedVideoGeneralResponse st rTemplate question ≠ "" := by
  unfold generateDetailedVideoGeneralResponse
  refine jsChoose_ne_empty _ _ hr0 hr1 (by simp) ?_
  intro x hx
  simp only [List.mem_cons, List.not_mem_nil, or_false] at hx
  rcases hx with rfl | rfl
  · unfold detailedVideoGeneral0
    repeat apply str_append_ne
    decide
  · unfold detailedVideoGeneral1
    repeat apply str_append_ne
    decide

theorem generateDetailedGeneralResponse_ne (rTemplate : ℚ) (question : String)
    (hr0 : 0 ≤ rTemplate) (hr1 : rTemplate < 1) :
    generateDetailedGeneralResponse rTemplate question ≠ "" := by
  unfold generateDetailedGeneralResponse
  cases categorizeGeneralQuestion question <;>
  · refine jsChoose_ne_empty _ _ hr0 hr1 (by simp) ?_
    intro x hx
    simp only [List.mem_cons, List.not_mem_nil, or_false] at hx
    rcases hx with rfl | rfl <;> decide

theorem generateDetailedFallbackResponse_content_ne (st : AIState)
    (rTemplate rConf : ℚ) (question : String) (hr0 : 0 ≤ rTemplate)
    (hr1 : rTemplate < 1) :
    (generateDetailedFallbackResponse st rTemplate rConf question).content
      ≠ "" := by
  unfold generateDetailedFallbackResponse
  cases hrel : isQuestionVideoRelated st question
  · simpa using generateDetailedGeneralResponse_ne rTemplate question hr0 hr1
  · cases hs : findRelevantSegments st question with
    | nil =>
      simpa [hs] using
        generateDetailedVideoGeneralResponse_ne st rTemplate question hr0 hr1
    | cons seg rest =>
      simpa [hs] using
        generateDetailedVideoResponse_ne rTemplate question (seg :: rest)
          (by simp) hr0 hr1

end AIService

/-- C2: for every question, when the remote generation provider reports
itself not configured — and likewise when its call fails —
`generateDetailedResponse` returns a result whose `content` is a non-empty
string.  The call never raises to the caller: it is a total function into
`AIResponse`, every error of the remote collaborator being caught and
answered by the local fallback. -/
theorem C2_generateDetailedResponse_fallback_nonempty
    (gemini : AIService.GeminiService) (st : AIState) (rTemplate rConf : ℚ)
    (question : String) (hr0 : 0 ≤ rTemplate) (hr1 : rTemplate < 1)
    (hfail : gemini.configured = false ∨
      ∃ e, gemini.detailedResponse question = .error e) :
    (AIService.generateDetailedResponse gemini st rTemplate rConf
      question).content ≠ "" := by
  have hfb := AIService.generateDetailedFallbackResponse_content_ne st
    rTemplate rConf question hr0 hr1
  rcases hfail with hc | ⟨e, he⟩
  · simpa [AIService.generateDetailedResponse, hc] using hfb
  · by_cases hcfg : gemini.configured
    · simpa [AIService.generateDetailedResponse, hcfg, he] using hfb
    · simpa [AIService.generateDetailedResponse, hcfg] using hfb

/-- C2, witnessed at a concrete unconfigured provider, state, question and
random draw. -/
theorem C2_witness :
    (AIService.generateDetailedResponse
      ⟨false, fun _ => Except.error "network"⟩
      ⟨"the transcript", [⟨"the cat sat", 0, 1⟩], "A video", "http"⟩
      0 0 "Tell me about the video").content ≠ "" :=
  C2_generateDetailedResponse_fallback_nonempty _ _ _ _ _
    (by norm_num) (by norm_num) (Or.inl rfl)

/-! ## C1/C10: the segment matcher -/

namespace AIService

theorem mem_scoredSegments (keywords : List String)
    (segments : List TranscriptSegment) (p : TranscriptSegment × Nat)
    (hp : p ∈ scoredSegments keywords segments) :
    p.1 ∈ segments ∧ p.2 = segScore keywords p.1 ∧ 0 < p.2 := by
  unfold scoredSegments at hp
  rcases List.mem_filterMap.mp hp with ⟨seg, hseg, hf⟩
  by_cases h : 0 < segScore keywords seg
  · simp only [h, if_true, Option.some.injEq] at hf
    subst hf
    exact ⟨hseg, rfl, h⟩
  · simp [h] at hf

theorem map_fst_scoredSegments_sublist (keywords : List String) :
    ∀ segments : List TranscriptSegment,
      List.Sublist ((scoredSegments keywords segments).map (fun item => item.1))
        segments
  | [] => by simp [scoredSegments]
  | seg :: rest => by
    unfold scoredSegments
    rw [List.filterMap_cons]
    by_cases h : 0 < segScore keywords seg
    · simp only [h, if_true]
      exact (map_fst_scoredSegments_sublist keywords rest).cons₂ seg
    · simp only [h, if_false]
      exact (map_fst_scoredSegments_sublist keywords rest).cons seg

theorem countOccurAux_eq_zero (needle : List Char) :
    ∀ (fuel : Nat) (hay : List Char), strContainsList needle hay = false →
      countOccurAux needle fuel hay = 0
  | 0, _, _ => by simp [countOccurAux]
  | _ + 1, [], _ => by simp [countOccurAux]
  | fuel + 1, c :: rest, h => by
    unfold strContainsList at h
    rcases Bool.or_eq_false_iff.mp h with ⟨h1, h2⟩
    unfold countOccurAux
    rw [if_neg (by simp [h1]), countOccurAux_eq_zero needle fuel rest h2]

theorem countOccurrences_eq_zero (hay needle : String)
    (h : strContains hay needle = false) :
    countOccurrences hay needle = 0 :=
  countOccurAux_eq_zero needle.toList hay.toList.length hay.toList h

theorem segScore_foldl_aux (seg : TranscriptSegment) :
    ∀ (kws : List String) (a : ℕ),
      kws.foldl (fun score keyword =>
        let segmentText := jsToLower seg.text
        let keywordLower := jsToLower keyword
        if strContains segmentText keywordLower then
          score + countOccurrences segmentText keywordLower * 2
        else score) a
      = a + (kws.map (fun kw =>
          2 * countOccurrences (jsToLower seg.text) (jsToLower kw))).sum
  | [], a => by simp
  | kw :: rest, a => by
    simp only [List.foldl_cons, List.map_cons, List.sum_cons]
    rw [segScore_foldl_aux seg rest]
    by_cases h : strContains (jsToLower seg.text) (jsToLower kw) = true
    · rw [if_pos h]
      omega
    · rw [if_neg h]
      have hf : strContains (jsToLower seg.text) (jsToLower kw) = false := by
        simpa using h
      rw [countOccurrences_eq_zero _ _ hf]
      omega

/-- The guarded fold of `segScore` computes exactly the claim's formula: the
sum over the keywords of twice the keyword's case-insensitive occurrence
count in the segment text (an absent keyword occurs 0 times). -/
theorem segScore_eq_sum (keywords : List String) (seg : TranscriptSegment) :
    segScore keywords seg = (keywords.map (fun kw =>
      2 * countOccurrences (jsToLower seg.text) (jsToLower kw))).sum := by
  unfold segScore
  rw [segScore_foldl_aux seg keywords 0]
  omega

theorem mem_findRelevantSegments (st : AIState) (question : String)
    (s : TranscriptSegment) (hs : s ∈ findRelevantSegments st question) :
    s ∈ st.segments ∧
      0 < segScore (extractKeywords question) s := by
  unfold findRelevantSegments at hs
  rcases List.mem_map.mp hs with ⟨p, hp, rfl⟩
  have hp₂ : p ∈ sortByDesc (fun item => item.2)
      (scoredSegments (extractKeywords question) st.segments) :=
    List.mem_of_mem_take hp
  have hp₃ := (mem_sortByDesc _ _ _).mp hp₂
  have := mem_scoredSegments _ _ _ hp₃
  exact ⟨this.1, this.2.1 ▸ this.2.2⟩

end AIService

/-- C1: for every question and stored segment list, `findRelevantSegments`
returns at most 3 segments; each returned segment has positive score (the
score being the sum over extracted keywords of 2 × the keyword's
case-insensitive occurrence count in the segment text — `segScore`);
segments of score 0 are excluded; the result is ordered by descending score;
the sort is stable: for every score value, the score's segments appear in
their original order (the filtered sublist at that score is unchanged by the
sort); and `segScore` is exactly the claim's formula, the sum over the
extracted keywords of 2 × the keyword's occurrence count. -/
theorem C1_findRelevantSegments_spec (st : AIState) (question : String) :
    (AIService.findRelevantSegments st question).length ≤ 3 ∧
    (∀ s ∈ AIService.findRelevantSegments st question,
      0 < AIService.segScore (AIService.extractKeywords question) s) ∧
    (AIService.findRelevantSegments st question).Pairwise
      (fun a b =>
        AIService.segScore (AIService.extractKeywords question) b ≤
          AIService.segScore (AIService.extractKeywords question) a) ∧
    (∀ c : ℕ,
      (sortByDesc (fun item => item.2)
        (AIService.scoredSegments (AIService.extractKeywords question)
          st.segments)).filter (fun item => item.2 = c) =
      (AIService.scoredSegments (AIService.extractKeywords question)
        st.segments).filter (fun item => item.2 = c)) ∧
    (∀ seg : TranscriptSegment,
      AIService.segScore (AIService.extractKeywords question) seg =
        ((AIService.extractKeywords question).map (fun kw =>
          2 * countOccurrences (jsToLower seg.text) (jsToLower kw))).sum) := by
  refine ⟨?_, ?_, ?_, ?_, ?_⟩
  · unfold AIService.findRelevantSegments
    rw [List.length_map]
    exact le_trans (List.length_take_le 3 _) (le_refl 3)
  · intro s hs
    exact (AIService.mem_findRelevantSegments st question s hs).2
  · unfold AIService.findRelevantSegments
    rw [List.pairwise_map]
    have hsorted := sortByDesc_sorted (fun item : TranscriptSegment × ℕ => item.2)
      (AIService.scoredSegments (AIService.extractKeywords question) st.segments)
    have htake := hsorted.sublist (List.take_sublist 3 _)
    refine htake.imp_of_mem ?_
    intro a b ha hb hab
    have ha' := AIService.mem_scoredSegments _ _ a
      ((mem_sortByDesc _ _ _).mp (List.mem_of_mem_take ha))
    have hb' := AIService.mem_scoredSegments _ _ b
      ((mem_sortByDesc _ _ _).mp (List.mem_of_mem_take hb))
    rw [← ha'.2.1, ← hb'.2.1]
    exact hab
  · intro c
    exact sortByDesc_filter (fun item : TranscriptSegment × ℕ => item.2) c _
  · intro seg
    exact AIService.segScore_eq_sum (AIService.extractKeywords question) seg

/-- C10: the matcher never fabricates, modifies or duplicates segments —
after `setTranscript` stores a segment list, every segment
`findRelevantSegments` returns is one of the stored segments, and no
segment value occurs in the output more often than among the stored
segments. -/
theorem C10_findRelevantSegments_subset (st₀ : AIState) (transcript : String)
    (segs : List TranscriptSegment) (title url : Option String)
    (question : String) :
    (∀ s ∈ AIService.findRelevantSegments
        (AIService.setTranscript st₀ transcript segs title url) question,
      s ∈ segs) ∧
    (∀ seg : TranscriptSegment,
      (AIService.findRelevantSegments
        (AIService.setTranscript st₀ transcript segs title url)
          question).count seg ≤ segs.count seg) := by
  have hsegs : (AIService.setTranscript st₀ transcript segs title url).segments
      = segs := rfl
  constructor
  · intro s hs
    have := AIService.mem_findRelevantSegments _ question s hs
    rw [hsegs] at this
    exact this.1
  · intro seg
    set kws := AIService.extractKeywords question
    set scored := AIService.scoredSegments kws segs
    have h1 : AIService.findRelevantSegments
        (AIService.setTranscript st₀ transcript segs title url) question =
        ((sortByDesc (fun item => item.2) scored).take 3).map
          (fun item => item.1) := rfl
    rw [h1]
    have hsub1 : List.Sublist
        (((sortByDesc (fun item => item.2) scored).take 3).map
          (fun item => item.1))
        ((sortByDesc (fun item => item.2) scored).map (fun item => item.1)) :=
      (List.take_sublist 3 _).map _
    have hperm : ((sortByDesc (fun item => item.2) scored).map
        (fun item => item.1)).Perm (scored.map (fun item => item.1)) :=
      (sortByDesc_perm _ _).map _
    have hsub2 : List.Sublist (scored.map (fun item => item.1)) segs :=
      AIService.map_fst_scoredSegments_sublist kws segs
    calc (((sortByDesc (fun item => item.2) scored).take 3).map
          (fun item => item.1)).count seg
        ≤ ((sortByDesc (fun item => item.2) scored).map
            (fun item => item.1)).count seg := hsub1.count_le seg
      _ = (scored.map (fun item => item.1)).count seg := hperm.count_eq seg
      _ ≤ segs.count seg := hsub2.count_le seg

/-- C4: a question whose tokens are all stop-words or of length at most 2 —
in particular the empty question, whose sole token is the empty string —
yields no keywords, and the matcher returns no segments whatever the stored
transcript segments are. -/
theorem C4_stopword_question_empty (question : String)
    (h : ∀ w ∈ AIService.questionTokens question,
      w ∈ AIService.stopWords ∨ w.length ≤ 2) :
    AIService.extractKeywords question = [] ∧
    ∀ st : AIState, AIService.findRelevantSegments st question = [] := by
  have hkw : AIService.extractKeywords question = [] := by
    unfold AIService.extractKeywords
    have hfilter : (AIService.questionTokens question).filter
        (fun word => decide (2 < word.length)
          && !(AIService.stopWords.contains word)) = [] := by
      refine List.filter_eq_nil_iff.mpr ?_
      intro w hw
      rcases h w hw with hstop | hshort
      · have hc : AIService.stopWords.contains w = true :=
          List.elem_eq_true_of_mem hstop
        simp [hc]
        exact fun _ => hstop
      · have hc : (decide (2 < w.length)) = false := by
          simp only [decide_eq_false_iff_not, not_lt]
          omega
        simp [hc]
    rw [hfilter]
    rfl
  refine ⟨hkw, ?_⟩
  intro st
  unfold AIService.findRelevantSegments
  rw [hkw]
  have hscored : AIService.scoredSegments [] st.segments = [] := by
    unfold AIService.scoredSegments
    refine List.filterMap_eq_nil.mpr ?_
    intro seg _
    simp [AIService.segScore]
  rw [hscored]
  rfl

/-- C4, witnessed at the all-stop-word question `"What is the"` and a
non-empty segment store. -/
theorem C4_witness :
    AIService.extractKeywords "What is the" = [] ∧
    AIService.findRelevantSegments
      ⟨"what what what", [⟨"what is the what", 0, 1⟩], "What", ""⟩
      "What is the" = [] := by
  have h := C4_stopword_question_empty "What is the" (by decide)
  exact ⟨h.1, h.2 _⟩

/-- C5: for the question `"Can you summarize the video?"` and any stored
context whose transcript contains the word `"summarize"`,
`categorizeQuestion` classifies the question as `summary` (the summary rule,
tested first, matches on the substring `"summarize"`) and
`isQuestionVideoRelated` is true (the question contains the video-discourse
keyword `"video"`). -/
theorem C5_summarize_question (st : AIState)
    (_htr : strContains st.transcript "summarize" = true) :
    AIService.categorizeQuestion "Can you summarize the video?" =
      AIService.QuestionCategory.summary ∧
    AIService.isQuestionVideoRelated st "Can you summarize the video?" =
      true := by
  refine ⟨by decide, ?_⟩
  have h1 : AIService.videoKeywords.any
      (fun keyword =>
        strContains (jsToLower "Can you summarize the video?") keyword) =
      true := by decide
  simp [AIService.isQuestionVideoRelated, h1]

/-- C5, witnessed at a concrete state whose transcript contains
`"summarize"`. -/
theorem C5_witness :
    strContains "we summarize things here" "summarize" = true ∧
    (AIService.categorizeQuestion "Can you summarize the video?" =
        AIService.QuestionCategory.summary ∧
      AIService.isQuestionVideoRelated
        ⟨"we summarize things here", [], "A talk", ""⟩
        "Can you summarize the video?" = true) :=
  ⟨by decide, C5_summarize_question _ (by decide)⟩

/-! ## C6: timestamp formatting -/

theorem jsFmod_of_nonneg (s : ℚ) (hs : 0 ≤ s) :
    jsFmod s 60 = s - 60 * (⌊s / 60⌋ : ℚ) := by
  unfold jsFmod ratTrunc
  rw [if_pos (div_nonneg hs (by norm_num))]

theorem padStart2_len_two_of_lt (r : ℤ) (h0 : 0 ≤ r) (h60 : r < 60) :
    (padStart2 (toString r)).length = 2 := by
  have hb : ∀ n : ℕ, n < 60 → (padStart2 (toString ((n : ℤ)))).length = 2 := by
    decide
  have hr : r = ((r.toNat : ℕ) : ℤ) := (Int.toNat_of_nonneg h0).symm
  rw [hr]
  exact hb r.toNat (by omega)

/-- C6: for every non-negative seconds value `s`, `formatTimestamp s` is
`floor(s/60)`, a colon, and `floor(s mod 60)` zero-padded to two digits
(`s mod 60 = s - 60⌊s/60⌋`, the JS remainder for a non-negative dividend);
the seconds part always has exactly 2 digits; and `formatTimestamp 95 =
"1:35"`, `formatTimestamp 59 = "0:59"`, `formatTimestamp 0 = "0:00"`. -/
theorem C6_formatTimestamp_spec (s : ℚ) (hs : 0 ≤ s) :
    (AIService.formatTimestamp s =
      toString ⌊s / 60⌋ ++ ":" ++
        padStart2 (toString ⌊s - 60 * (⌊s / 60⌋ : ℚ)⌋) ∧
      (padStart2 (toString ⌊s - 60 * (⌊s / 60⌋ : ℚ)⌋)).length = 2) ∧
    AIService.formatTimestamp 95 = "1:35" ∧
    AIService.formatTimestamp 59 = "0:59" ∧
    AIService.formatTimestamp 0 = "0:00" := by
  have heval : ∀ t : ℚ, 0 ≤ t → AIService.formatTimestamp t =
      toString ⌊t / 60⌋ ++ ":" ++
        padStart2 (toString ⌊t - 60 * (⌊t / 60⌋ : ℚ)⌋) := by
    intro t ht
    unfold AIService.formatTimestamp
    rw [jsFmod_of_nonneg t ht]
  have hpad : ∀ t : ℚ, 0 ≤ t →
      (padStart2 (toString ⌊t - 60 * (⌊t / 60⌋ : ℚ)⌋)).length = 2 := by
    intro t ht
    have hfrac0 : (0 : ℚ) ≤ t - 60 * (⌊t / 60⌋ : ℚ) := by
      have h1 : (⌊t / 60⌋ : ℚ) ≤ t / 60 := Int.floor_le _
      nlinarith
    have hfrac60 : t - 60 * (⌊t / 60⌋ : ℚ) < 60 := by
      have h2 : t / 60 < (⌊t / 60⌋ : ℚ) + 1 := Int.lt_floor_add_one _
      nlinarith
    refine padStart2_len_two_of_lt _ (Int.floor_nonneg.mpr hfrac0) ?_
    have := Int.floor_lt.mpr (show t - 60 * (⌊t / 60⌋ : ℚ) < ((60 : ℤ) : ℚ) by
      exact_mod_cast hfrac60)
    exact this
  refine ⟨⟨heval s hs, hpad s hs⟩, ?_, ?_, ?_⟩
  · rw [heval 95 (by norm_num)]
    rw [show ⌊(95 : ℚ) / 60⌋ = 1 by norm_num,
      show ⌊(95 : ℚ) - 60 * ((1 : ℤ) : ℚ)⌋ = 35 by norm_num]
    decide
  · rw [heval 59 (by norm_num)]
    rw [show ⌊(59 : ℚ) / 60⌋ = 0 by norm_num,
      show ⌊(59 : ℚ) - 60 * ((0 : ℤ) : ℚ)⌋ = 59 by norm_num]
    decide
  · rw [heval 0 (by norm_num)]
    rw [show ⌊(0 : ℚ) / 60⌋ = 0 by norm_num,
      show ⌊(0 : ℚ) - 60 * ((0 : ℤ) : ℚ)⌋ = 0 by norm_num]
    decide

/-- C6, witnessed at `s = 95`. -/
theorem C6_witness :
    0 ≤ (95 : ℚ) ∧
    ((AIService.formatTimestamp 95 =
      toString ⌊(95 : ℚ) / 60⌋ ++ ":" ++
        padStart2 (toString ⌊(95 : ℚ) - 60 * (⌊(95 : ℚ) / 60⌋ : ℚ)⌋) ∧
      (padStart2
        (toString ⌊(95 : ℚ) - 60 * (⌊(95 : ℚ) / 60⌋ : ℚ)⌋)).length = 2) ∧
    AIService.formatTimestamp 95 = "1:35" ∧
    AIService.formatTimestamp 59 = "0:59" ∧
    AIService.formatTimestamp 0 = "0:00") :=
  ⟨by norm_num, C6_formatTimestamp_spec 95 (by norm_num)⟩

/-! ## C3: brief-mode post-processing -/

/-- C3 counterexample: on the two-sentence content
`"Hello there. Nothing special."` the claim requires the second sentence —
under 100 characters but with no importance keyword — to be discarded,
leaving `"Hello there."`; `makeBriefContent` instead returns contents of at
most two sentences unchanged, second sentence included. -/
theorem C3_counterexample :
    AIService.makeBriefContent "Hello there. Nothing special." =
      "Hello there. Nothing special." ∧
    (AIService.sentencesOf "Hello there. Nothing special.").length = 2 ∧
    AIService.isImportantSentence "Nothing special" = false ∧
    (jsTrim " Nothing special").length < 100 ∧
    AIService.makeBriefContent "Hello there. Nothing special." ≠
      "Hello there." := by
  refine ⟨by decide, by decide, by decide, by decide, by decide⟩

/-- C3 (amended): the described post-processing — keep the trimmed first
sentence with a period, append the trimmed second sentence (with a period)
only when it is under 100 characters and contains an importance keyword,
discard the rest — applies only to content of more than two sentences;
content of at most two sentences is returned unchanged. -/
theorem C3_makeBriefContent_amended (content : String) :
    ((AIService.sentencesOf content).length ≤ 2 →
      AIService.makeBriefContent content = content) ∧
    (∀ first second rest,
      AIService.sentencesOf content = first :: second :: rest →
      rest ≠ [] →
      AIService.makeBriefContent content =
        if decide ((jsTrim second).length < 100)
            && AIService.isImportantSentence (jsTrim second) then
          jsTrim first ++ "." ++ " " ++ jsTrim second ++ "."
        else jsTrim first ++ ".") := by
  constructor
  · intro hle
    unfold AIService.makeBriefContent
    rw [if_pos hle]
  · intro first second rest heq hrest
    have hgt : ¬ (AIService.sentencesOf content).length ≤ 2 := by
      rw [heq]
      cases rest with
      | nil => exact absurd rfl hrest
      | cons r rs => simp only [List.length_cons]; omega
    unfold AIService.makeBriefContent
    rw [if_neg hgt, heq]

/-! ## C7–C9: conversation store lemmas -/

namespace VideoChatStorage

theorem reviveSession_eq (session : ChatSession) :
    reviveSession session = session := by
  cases session with
  | mk id title messages createdAt videoId videoTitle =>
    show ChatSession.mk id title (messages.map (fun m => m)) createdAt
        videoId videoTitle = _
    rw [List.map_id']

theorem map_reviveSession_eq (sessions : List ChatSession) :
    sessions.map reviveSession = sessions := by
  have h : reviveSession = fun session => session := funext reviveSession_eq
  rw [h, List.map_id']

theorem getVideoChats_eq (idx : VideoChatIndex) (videoId : String) :
    getVideoChats idx videoId = (objGet idx videoId).getD [] := by
  unfold getVideoChats
  rw [map_reviveSession_eq]

theorem lookup_cons_self (k : String) (v : List ChatSession)
    (l : VideoChatIndex) : List.lookup k ((k, v) :: l) = some v := by
  simp [List.lookup]

theorem lookup_cons_ne (k w : String) (v : List ChatSession)
    (l : VideoChatIndex) (hw : w ≠ k) :
    List.lookup w ((k, v) :: l) = List.lookup w l := by
  simp [List.lookup, beq_eq_false_iff_ne.mpr hw]

theorem lookup_map_set (videoId : String) (sessions : List ChatSession) :
    ∀ idx : VideoChatIndex, objHas idx videoId = true →
      List.lookup videoId
        (idx.map (fun entry =>
          if entry.1 == videoId then (videoId, sessions) else entry)) =
        some sessions
  | [], h => by simp [objHas] at h
  | entry :: rest, h => by
    obtain ⟨k, v⟩ := entry
    by_cases hk : k = videoId
    · subst hk
      simp only [List.map_cons, show ((k, v).1 == k) = true by simp,
        if_true]
      exact lookup_cons_self k sessions _
    · have h' : objHas rest videoId = true := by
        simpa [objHas, hk] using h
      simp only [List.map_cons, show ((k, v).1 == videoId) = false by
        simpa using hk, Bool.false_eq_true, if_false]
      rw [lookup_cons_ne k videoId v _ (Ne.symm hk)]
      exact lookup_map_set videoId sessions rest h'

theorem lookup_append_absent (videoId : String) (sessions : List ChatSession) :
    ∀ idx : VideoChatIndex, objHas idx videoId = false →
      List.lookup videoId (idx ++ [(videoId, sessions)]) = some sessions
  | [], _ => by simp [List.lookup]
  | entry :: rest, h => by
    obtain ⟨k, v⟩ := entry
    have hk : ¬ k = videoId := by
      intro hkv
      simp [objHas, hkv] at h
    have h' : objHas rest videoId = false := by
      simpa [objHas, hk] using h
    rw [List.cons_append, lookup_cons_ne k videoId v _ (Ne.symm hk)]
    exact lookup_append_absent videoId sessions rest h'

theorem objGet_objSet_self (idx : VideoChatIndex) (videoId : String)
    (sessions : List ChatSession) :
    objGet (objSet idx videoId sessions) videoId = some sessions := by
  unfold objSet objGet
  by_cases h : objHas idx videoId
  · rw [if_pos h]
    exact lookup_map_set videoId sessions idx h
  · rw [if_neg h]
    exact lookup_append_absent videoId sessions idx (by simpa using h)

theorem lookup_map_set_ne (videoId w : String) (sessions : List ChatSession)
    (hw : w ≠ videoId) :
    ∀ idx : VideoChatIndex,
      List.lookup w
        (idx.map (fun entry =>
          if entry.1 == videoId then (videoId, sessions) else entry)) =
        List.lookup w idx
  | [] => rfl
  | entry :: rest => by
    obtain ⟨k, v⟩ := entry
    by_cases hk : k = videoId
    · subst hk
      simp only [List.map_cons, show ((k, v).1 == k) = true by simp, if_true]
      rw [lookup_cons_ne k w sessions _ hw, lookup_cons_ne k w v _ hw]
      exact lookup_map_set_ne k w sessions hw rest
    · simp only [List.map_cons, show ((k, v).1 == videoId) = false by
        simpa using hk, Bool.false_eq_true, if_false]
      by_cases hwk : w = k
      · subst hwk
        rw [lookup_cons_self, lookup_cons_self]
      · rw [lookup_cons_ne k w v _ hwk, lookup_cons_ne k w v _ hwk]
        exact lookup_map_set_ne videoId w sessions hw rest

theorem lookup_append_single_ne (videoId w : String)
    (sessions : List ChatSession) (hw : w ≠ videoId) :
    ∀ idx : VideoChatIndex,
      List.lookup w (idx ++ [(videoId, sessions)]) = List.lookup w idx
  | [] => by
    simp [List.lookup, beq_eq_false_iff_ne.mpr hw]
  | entry :: rest => by
    obtain ⟨k, v⟩ := entry
    by_cases hwk : w = k
    · subst hwk
      rw [List.cons_append, lookup_cons_self, lookup_cons_self]
    · rw [List.cons_append, lookup_cons_ne k w v _ hwk,
        lookup_cons_ne k w v _ hwk]
      exact lookup_append_single_ne videoId w sessions hw rest

theorem objGet_objSet_ne (idx : VideoChatIndex) (videoId w : String)
    (sessions : List ChatSession) (hw : w ≠ videoId) :
    objGet (objSet idx videoId sessions) w = objGet idx w := by
  unfold objSet objGet
  by_cases h : objHas idx videoId
  · rw [if_pos h]
    exact lookup_map_set_ne videoId w sessions hw idx
  · rw [if_neg h]
    exact lookup_append_single_ne videoId w sessions hw idx

theorem objGet_objErase_self (videoId : String) :
    ∀ idx : VideoChatIndex, objGet (objErase idx videoId) videoId = none
  | [] => rfl
  | entry :: rest => by
    obtain ⟨k, v⟩ := entry
    unfold objErase objGet
    by_cases hk : k = videoId
    · subst hk
      simp only [List.filter_cons, show (!((k, v).1 == k)) = false by simp,
        Bool.false_eq_true, if_false]
      exact objGet_objErase_self k rest
    · simp only [List.filter_cons, show (!((k, v).1 == videoId)) = true by
        simpa using hk, if_true]
      rw [lookup_cons_ne k videoId v _ (Ne.symm hk)]
      exact objGet_objErase_self videoId rest

theorem objGet_objErase_ne (videoId w : String) (hw : w ≠ videoId) :
    ∀ idx : VideoChatIndex,
      objGet (objErase idx videoId) w = objGet idx w
  | [] => rfl
  | entry :: rest => by
    obtain ⟨k, v⟩ := entry
    unfold objErase objGet
    by_cases hk : k = videoId
    · subst hk
      simp only [List.filter_cons, show (!((k, v).1 == k)) = false by simp,
        Bool.false_eq_true, if_false]
      rw [lookup_cons_ne k w v _ (by simpa using hw)]
      exact objGet_objErase_ne k w hw rest
    · simp only [List.filter_cons, show (!((k, v).1 == videoId)) = true by
        simpa using hk, if_true]
      by_cases hwk : w = k
      · subst hwk
        rw [lookup_cons_self, lookup_cons_self]
      · rw [lookup_cons_ne k w v _ hwk, lookup_cons_ne k w v _ hwk]
        exact objGet_objErase_ne videoId w hw rest

theorem objGet_eq_none_of_not_has (videoId : String) :
    ∀ idx : VideoChatIndex, objHas idx videoId = false →
      objGet idx videoId = none
  | [], _ => rfl
  | entry :: rest, h => by
    obtain ⟨k, v⟩ := entry
    have hk : ¬ k = videoId := by
      intro hkv
      simp [objHas, hkv] at h
    have h' : objHas rest videoId = false := by
      simpa [objHas, hk] using h
    unfold objGet
    rw [lookup_cons_ne k videoId v _ (Ne.symm hk)]
    exact objGet_eq_none_of_not_has videoId rest h'

theorem keys_ne_of_not_has (idx : VideoChatIndex) (videoId : String)
    (h : objHas idx videoId = false) :
    ∀ entry ∈ idx, entry.1 ≠ videoId := by
  intro entry hmem heq
  have htrue : objHas idx videoId = true := by
    unfold objHas
    exact List.any_eq_true.mpr ⟨entry, hmem, by simp [heq]⟩
  rw [htrue] at h
  cases h

end VideoChatStorage

/-- C7: `saveVideoChats v S` followed by `getVideoChats v` yields exactly
`S` (with instants as millisecond integers the `Date` round trip is exact),
and a video id with no stored entry yields the empty list. -/
theorem C7_saveVideoChats_roundTrip (idx : VideoChatIndex) (videoId : String)
    (sessions : List ChatSession) :
    VideoChatStorage.getVideoChats
      (VideoChatStorage.saveVideoChats idx videoId sessions) videoId =
      sessions ∧
    (∀ (idx' : VideoChatIndex) (w : String),
      (∀ entry ∈ idx', entry.1 ≠ w) →
      VideoChatStorage.getVideoChats idx' w = []) := by
  constructor
  · rw [VideoChatStorage.getVideoChats_eq]
    unfold VideoChatStorage.saveVideoChats
    rw [VideoChatStorage.objGet_objSet_self]
    rfl
  · intro idx' w hkeys
    rw [VideoChatStorage.getVideoChats_eq]
    have hhas : VideoChatStorage.objHas idx' w = false := by
      unfold VideoChatStorage.objHas
      refine List.any_eq_false.mpr ?_
      intro entry hmem
      simpa using hkeys entry hmem
    rw [VideoChatStorage.objGet_eq_none_of_not_has w idx' hhas]
    rfl

namespace VideoChatStorage

theorem exists_key_of_mem_listing (idx : VideoChatIndex)
    (row : VideoWithChats) (h : row ∈ getAllVideosWithChats idx) :
    ∃ entry ∈ idx, row.videoId = entry.1 := by
  unfold getAllVideosWithChats at h
  have h2 := (mem_sortByDesc _ _ _).mp h
  rcases List.mem_map.mp h2 with ⟨entry, hentry, heq⟩
  exact ⟨entry, hentry, by rw [← heq]⟩

end VideoChatStorage

/-- C8: `deleteVideoChat v s` removes exactly the sessions with id `s` from
`v`'s list, leaves every other video's list untouched, and when the
remaining list for `v` is empty the key disappears: no row of
`getAllVideosWithChats` names `v` any more — in particular deleting the
only remaining session of a video removes the video from the listing. -/
theorem C8_deleteVideoChat_spec (idx : VideoChatIndex) (videoId s : String) :
    VideoChatStorage.getVideoChats
        (VideoChatStorage.deleteVideoChat idx videoId s) videoId =
      (VideoChatStorage.getVideoChats idx videoId).filter
        (fun session => !(session.id == s)) ∧
    (∀ w, w ≠ videoId →
      VideoChatStorage.getVideoChats
          (VideoChatStorage.deleteVideoChat idx videoId s) w =
        VideoChatStorage.getVideoChats idx w) ∧
    ((VideoChatStorage.getVideoChats idx videoId).filter
        (fun session => !(session.id == s)) = [] →
      ∀ row ∈ VideoChatStorage.getAllVideosWithChats
          (VideoChatStorage.deleteVideoChat idx videoId s),
        row.videoId ≠ videoId) := by
  by_cases hhas : VideoChatStorage.objHas idx videoId
  · have hdel : VideoChatStorage.deleteVideoChat idx videoId s =
        (if (((VideoChatStorage.objGet idx videoId).getD []).filter
            (fun session => !(session.id == s))).isEmpty then
          VideoChatStorage.objErase idx videoId
        else
          VideoChatStorage.objSet idx videoId
            (((VideoChatStorage.objGet idx videoId).getD []).filter
              (fun session => !(session.id == s)))) := by
      unfold VideoChatStorage.deleteVideoChat
      rw [if_pos hhas]
    have hG : VideoChatStorage.getVideoChats idx videoId =
        (VideoChatStorage.objGet idx videoId).getD [] :=
      VideoChatStorage.getVideoChats_eq idx videoId
    by_cases hemp : (((VideoChatStorage.objGet idx videoId).getD []).filter
        (fun session => !(session.id == s))).isEmpty
    · rw [hdel, if_pos hemp]
      have hnil : ((VideoChatStorage.objGet idx videoId).getD []).filter
          (fun session => !(session.id == s)) = [] :=
        List.isEmpty_iff.mp hemp
      refine ⟨?_, ?_, ?_⟩
      · rw [VideoChatStorage.getVideoChats_eq,
          VideoChatStorage.objGet_objErase_self, hG, hnil]
        rfl
      · intro w hw
        rw [VideoChatStorage.getVideoChats_eq,
          VideoChatStorage.objGet_objErase_ne videoId w hw,
          VideoChatStorage.getVideoChats_eq]
      · intro _ row hrow
        rcases VideoChatStorage.exists_key_of_mem_listing _ row hrow with
          ⟨entry, hentry, hkey⟩
        have := List.mem_filter.mp hentry
        rw [hkey]
        simpa using this.2
    · rw [hdel, if_neg hemp]
      refine ⟨?_, ?_, ?_⟩
      · rw [VideoChatStorage.getVideoChats_eq,
          VideoChatStorage.objGet_objSet_self, hG]
        rfl
      · intro w hw
        rw [VideoChatStorage.getVideoChats_eq,
          VideoChatStorage.objGet_objSet_ne idx videoId w _ hw,
          VideoChatStorage.getVideoChats_eq]
      · intro habs
        rw [hG] at habs
        rw [habs] at hemp
        simp at hemp
  · have hdel : VideoChatStorage.deleteVideoChat idx videoId s = idx := by
      unfold VideoChatStorage.deleteVideoChat
      rw [if_neg hhas]
    have hget : VideoChatStorage.getVideoChats idx videoId = [] := by
      rw [VideoChatStorage.getVideoChats_eq,
        VideoChatStorage.objGet_eq_none_of_not_has videoId idx
          (by simpa using hhas)]
      rfl
    refine ⟨?_, ?_, ?_⟩
    · rw [hdel, hget]
      rfl
    · intro w _
      rw [hdel]
    · intro _ row hrow
      rw [hdel] at hrow
      rcases VideoChatStorage.exists_key_of_mem_listing _ row hrow with
        ⟨entry, hentry, hkey⟩
      rw [hkey]
      exact VideoChatStorage.keys_ne_of_not_has idx videoId
        (by simpa using hhas) entry hentry

namespace VideoChatStorage

theorem init_le_foldLatest :
    ∀ (sessions : List ChatSession) (init : ℤ),
      init ≤ sessions.foldl
        (fun latest session =>
          if latest < session.createdAt then session.createdAt else latest)
        init
  | [], _ => le_refl _
  | session :: rest, init => by
    have hstep : init ≤
        (if init < session.createdAt then session.createdAt else init) := by
      by_cases h : init < session.createdAt
      · rw [if_pos h]; exact le_of_lt h
      · rw [if_neg h]
    exact le_trans hstep (init_le_foldLatest rest _)

theorem createdAt_le_foldLatest :
    ∀ (sessions : List ChatSession) (init : ℤ) (session : ChatSession),
      session ∈ sessions →
      session.createdAt ≤ sessions.foldl
        (fun latest t =>
          if latest < t.createdAt then t.createdAt else latest)
        init
  | [], _, _, h => absurd h (List.not_mem_nil _)
  | t :: rest, init, session, h => by
    rcases List.mem_cons.mp h with rfl | hmem
    · have hstep : session.createdAt ≤
          (if init < session.createdAt then session.createdAt else init) := by
        by_cases hc : init < session.createdAt
        · rw [if_pos hc]
        · rw [if_neg hc]; exact le_of_not_lt hc
      exact le_trans hstep (init_le_foldLatest rest _)
    · exact createdAt_le_foldLatest rest _ session hmem

theorem createdAt_le_lastActivityOf (sessions : List ChatSession)
    (session : ChatSession) (h : session ∈ sessions) :
    session.createdAt ≤ lastActivityOf sessions :=
  createdAt_le_foldLatest sessions 0 session h

theorem mem_objSet_self (idx : VideoChatIndex) (videoId : String)
    (sessions : List ChatSession) :
    (videoId, sessions) ∈ objSet idx videoId sessions := by
  unfold objSet
  by_cases h : objHas idx videoId
  · rw [if_pos h]
    unfold objHas at h
    rcases List.any_eq_true.mp h with ⟨entry, hentry, hkey⟩
    refine List.mem_map.mpr ⟨entry, hentry, ?_⟩
    rw [if_pos hkey]
  · rw [if_neg h]
    exact List.mem_append.mpr (Or.inr (List.mem_singleton.mpr rfl))

end VideoChatStorage

/-- C9: the rows of `getAllVideosWithChats` are sorted by `lastActivity`
descending; consequently, after appending a session whose `createdAt` is
strictly later than every other video's `lastActivity`, that session's video
is the head of the listing. -/
theorem C9_getAllVideosWithChats_sorted (idx : VideoChatIndex)
    (videoId : String) (newSession : ChatSession) :
    (VideoChatStorage.getAllVideosWithChats idx).Pairwise
      (fun a b => b.lastActivity ≤ a.lastActivity) ∧
    ((∀ row ∈ VideoChatStorage.getAllVideosWithChats
        (VideoChatStorage.saveVideoChats idx videoId
          (VideoChatStorage.getVideoChats idx videoId ++ [newSession])),
        row.videoId ≠ videoId →
          row.lastActivity < newSession.createdAt) →
      ∃ h, (VideoChatStorage.getAllVideosWithChats
          (VideoChatStorage.saveVideoChats idx videoId
            (VideoChatStorage.getVideoChats idx videoId ++
              [newSession]))).head? = some h ∧
        h.videoId = videoId) := by
  constructor
  · exact sortByDesc_sorted _ _
  · intro hlater
    set newList := VideoChatStorage.getVideoChats idx videoId ++ [newSession]
      with hnewList
    set idx' := VideoChatStorage.saveVideoChats idx videoId newList
      with hidx'
    set entries := idx'.map (fun entry =>
      ({ videoId := entry.1
         videoTitle := VideoChatStorage.videoTitleOf entry.2
         chatCount := entry.2.length
         lastActivity := VideoChatStorage.lastActivityOf entry.2 } :
        VideoChatStorage.VideoWithChats)) with hentries
    have hlisting : VideoChatStorage.getAllVideosWithChats idx' =
        sortByDesc (fun row => row.lastActivity) entries := rfl
    have hmemIdx : (videoId, newList) ∈ idx' :=
      VideoChatStorage.mem_objSet_self idx videoId newList
    have hmemEntries :
        ({ videoId := videoId
           videoTitle := VideoChatStorage.videoTitleOf newList
           chatCount := newList.length
           lastActivity := VideoChatStorage.lastActivityOf newList } :
          VideoChatStorage.VideoWithChats) ∈ entries := by
      rw [hentries]
      exact List.mem_map.mpr ⟨(videoId, newList), hmemIdx, rfl⟩
    have hvAct : newSession.createdAt ≤
        VideoChatStorage.lastActivityOf newList :=
      VideoChatStorage.createdAt_le_lastActivityOf newList newSession
        (List.mem_append.mpr (Or.inr (List.mem_singleton.mpr rfl)))
    have hmemSorted :
        ({ videoId := videoId
           videoTitle := VideoChatStorage.videoTitleOf newList
           chatCount := newList.length
           lastActivity := VideoChatStorage.lastActivityOf newList } :
          VideoChatStorage.VideoWithChats) ∈
          sortByDesc (fun row => row.lastActivity) entries :=
      (mem_sortByDesc _ _ _).mpr hmemEntries
    cases hsorted : sortByDesc (fun row => row.lastActivity) entries with
    | nil =>
      rw [hsorted] at hmemSorted
      cases hmemSorted
    | cons h t =>
      refine ⟨h, by rw [hlisting, hsorted]; rfl, ?_⟩
      have hmax := head_sortByDesc_max (fun row => row.lastActivity) entries
        _ hmemEntries h (by rw [hsorted]; rfl)
      by_contra hne
      have hhmem : h ∈ VideoChatStorage.getAllVideosWithChats idx' := by
        rw [hlisting, hsorted]
        exact List.mem_cons_self _ _
      have hlt := hlater h hhmem hne
      have : newSession.createdAt ≤ h.lastActivity :=
        le_trans hvAct hmax
      omega
